import Mathlib

/-!
Verification of the sAsync transaction broker (src/sasync/database.py and
src/sasync/queue.py) against its natural-language specification.

The embedding is shallow: the Python functions of the repository are
translated into Lean functions over explicit state.  Asynchronous control
flow (Twisted deferreds) is modelled by the value the completion handle
eventually resolves with, together with an explicit list of the events
(begin, commit, rollback, ...) the call performs, in the order they occur.
Exceptions are modelled with `Except`.
-/

namespace SAsync

/-- Python exceptions that appear in database.py: a generic exception
raised by user code, `errors.TransactionError` wrapping information about
the original exception (database.py 56-58), the `ValueError` raised by
`substituteFunction` (database.py 205-207), and the failure produced when
a task is submitted to a work queue that has been shut down. -/
inductive PyErr where
  | exc : String → PyErr
  | transactionError : PyErr → PyErr
  | valueError : String → PyErr
  | queueRunError : PyErr
deriving DecidableEq

/-- Observable events on the broker connection: the begin of a
transaction, its commit or rollback, and numbered database statements
issued by the wrapped function itself. -/
inductive Ev where
  | beginTx
  | commit
  | rollback
  | dbWork (n : Nat)
deriving DecidableEq

/-- Python values a transaction can resolve with: `None`, an integer, a
row-returning `ResultProxy` (with its pending rows, and a flag recording
that fetching from it raises, e.g. after its connection was invalidated),
a plain Python list of rows, and the pull-mode `Deferator` produced by
`handleResult` (database.py 476). -/
inductive PyVal where
  | none
  | nat (n : Nat)
  | rp (rows : List Nat) (failing : Bool)
  | rowsList (rows : List Nat)
  | deferator (rows : List Nat)
deriving DecidableEq

/-- The outcome of running a wrapped function body in the worker thread:
the events it performed on the connection before returning or raising,
and its result (or the exception it raised). -/
structure FRun where
  events : List Ev
  result : Except PyErr PyVal

/-- The transaction envelope, database.py 43-61: `begin`, then the call
to `func`; on an exception, `rollback` and raise
`errors.TransactionError` wrapping information about the original
exception; otherwise `commit` and return the result.  The begin itself is
taken to succeed (the connection is live in all scenarios modelled
here). -/
def transaction (fr : FRun) : FRun :=
  match fr.result with
  | Except.ok r => ⟨Ev.beginTx :: fr.events ++ [Ev.commit], Except.ok r⟩
  | Except.error e =>
      ⟨Ev.beginTx :: fr.events ++ [Ev.rollback],
       Except.error (PyErr.transactionError e)⟩

/-- Code objects that can sit in a Python call frame, as inspected by
`isNested` (database.py 78-100): the code of the `transaction` function,
the code of the brokers `first` method, and anything else. -/
inductive Code where
  | transactionCode
  | firstCode
  | other (n : Nat)
deriving DecidableEq

/-- database.py 78-100: walk the chain of calling frames (here: the list
of their code objects, innermost first); the call is nested when some
outer frame is executing `transaction` itself, or, when the broker has a
`first` method (whose code object is then fetched), that first-transaction
code. -/
def isNested (stack : List Code) (hasFirst : Bool) : Bool :=
  stack.any fun c =>
    c == Code.transactionCode || (hasFirst && c == Code.firstCode)

/-- Modelled from the spec: the WorkQueue worker (the asynqueue
ThreadQueue, an external package not under src/).  Spec 4.1: a failure
raised inside a submitted callable is captured and delivered as a failure
through that tasks completion handle, rather than raised on the worker;
the worker survives and unrelated queued tasks are unaffected.  Spec 7(d):
submitting work after the queue has shut down fails fast. -/
structure WQueue where
  alive : Bool
deriving DecidableEq

/-- One worker step: run a transaction-wrapped task on the queue.  On a
live queue the tasks own outcome (result or captured failure) resolves
its handle and the worker continues unchanged; on a dead queue the
submission fails fast with a queue-run failure. -/
def qStep (q : WQueue) (fr : FRun) : Except PyErr PyVal × WQueue :=
  if q.alive then ((transaction fr).result, q)
  else (Except.error PyErr.queueRunError, q)

/-- The worker serially processing a list of submitted transaction tasks,
threading the queue state from task to task. -/
def qRunAll (q : WQueue) : List FRun → List (Except PyErr PyVal)
  | [] => []
  | t :: ts =>
      let s := qStep q t
      s.1 :: qRunAll s.2 ts

/-- The state of a synchronous `ResultProxy` cursor: its remaining rows,
and whether fetching from it raises. -/
structure RP where
  rows : List Nat
  failing : Bool
deriving DecidableEq

/-- What one call to `nextFromRP` produces: a batch of rows together with
the advanced cursor, or the `StopIteration` end-of-sequence control
signal (database.py 76), which the iteration machinery consumes and which
is never delivered as a failure. -/
inductive Fetched where
  | rows (rs : List Nat) (rp : RP)
  | done
deriving DecidableEq

/-- database.py 63-76: fetch the next row (`fetchone`, when N = 1) or the
next N rows (`fetchmany`) from the cursor; a raising fetch is caught by
the bare except and yields the empty result; a falsy (empty) result
raises `StopIteration`, the distinguished end-of-sequence signal.
A fetched single row is packaged here as a one-element batch. -/
def nextFromRP (rp : RP) (N : Nat) : Fetched :=
  let fetched : List Nat × RP :=
    if rp.failing then ([], rp)
    else if N = 1 then
      match rp.rows with
      | [] => ([], rp)
      | r :: rest => ([r], ⟨rest, rp.failing⟩)
    else (rp.rows.take N, ⟨rp.rows.drop N, rp.failing⟩)
  match fetched with
  | ([], _) => Fetched.done
  | (l, rp2) => Fetched.rows l rp2

/-- Modelled from the spec: the pull-mode iteration driver (the asynqueue
Prefetcherator and Deferator, external packages not under src/, wired up
by `handleResult` at database.py 472-476 with `self.q.deferToThread` and
`nextFromRP`).  Spec 4.5: each per-row completion handle resolves by
submitting a single fetch-next-row task to the WorkQueue, until the
distinguished end signal.  The first argument is fuel bounding the
recursion; `pullIterate` supplies enough for the finite cursor.  The
result is the list of rows delivered, in order, together with the number
of fetch tasks submitted to the queue. -/
def pullGo : Nat → RP → List Nat × Nat
  | 0, _ => ([], 0)
  | Nat.succ fuel, rp =>
      match nextFromRP rp 1 with
      | Fetched.done => ([], 1)
      | Fetched.rows l rp2 =>
          let p := pullGo fuel rp2
          (l ++ p.1, p.2 + 1)

/-- Drive `nextFromRP` over the whole cursor, one row per fetch task. -/
def pullIterate (rp : RP) : List Nat × Nat :=
  pullGo (rp.rows.length + 1) rp

/-- database.py 465-496, restricted to the paths the claims exercise (no
consumer, no asList, N = 1, no extra connection to close): a
row-returning `ResultProxy` is probed by the Prefetcherator setup (one
`nextFromRP` call); if the probe already signals the end, the distinguished
empty list is returned instead of an error; otherwise the result is a
`Deferator` over the rows.  Anything that is not a `ResultProxy` is
returned unchanged. -/
def handleResult (v : PyVal) : PyVal :=
  match v with
  | PyVal.rp rows failing =>
      match nextFromRP ⟨rows, failing⟩ 1 with
      | Fetched.done => PyVal.rowsList []
      | Fetched.rows _ _ => PyVal.deferator rows
  | w => w

/-- What the completion handle of one queued transaction resolves with,
together with the connection events the call performed. -/
structure DTxOut where
  events : List Ev
  result : Except PyErr PyVal

/-- The `doTransaction` inner function, database.py 168-198, for a broker
that is past startup (the lock interaction before the queue call is
modelled separately by the startup-gate machine below): the transaction
envelope runs on the queue; a failure raised there is wrapped by `oops`
into a one-element list, passes through `handleResult` unchanged (a list
has no returns_rows attribute), and is then re-raised so the callers
completion handle fires with it; a normal result is passed through
`handleResult` unless `raw` was requested.  On a dead queue the
submission itself fails fast and no transaction events occur. -/
def doTransaction (q : WQueue) (raw : Bool) (fr : FRun) : DTxOut :=
  if q.alive then
    let t := transaction fr
    match t.result with
    | Except.error e => ⟨t.events, Except.error e⟩
    | Except.ok v => ⟨t.events, Except.ok (if raw then v else handleResult v)⟩
  else ⟨[], Except.error PyErr.queueRunError⟩

/-- The per-call keyword options read by `substituteFunction`
(database.py 200-208): `raw` (kept, also consumed by the queue), `asList`
and `consumer` and `isNested` (popped), and `ignore`, which the spec
lists as an option but which no code under src/ ever reads: like any
other leftover keyword it is passed through to the queued call and so to
the wrapped function. -/
structure CallKw where
  raw : Bool
  asList : Bool
  consumer : Bool
  isNestedKw : Bool
  ignore : Bool

/-- What a call to the substitute (decorated) function produces: how many
queue submissions it made, the connection events performed, what the
caller receives (directly or through the completion handle), and whether
that delivery was synchronous (a direct nested call or an immediately
raised error) rather than deferred. -/
structure CallOutcome where
  queueSubmissions : Nat
  events : List Ev
  result : Except PyErr PyVal
  immediate : Bool

/-- The substitute function installed by the `transact` decorator,
database.py 137-214: supplying both a consumer and `raw` raises
`ValueError` at once, before any queue submission; a call that is nested
(by the `isNested` keyword or by stack inspection) runs the wrapped
function directly, with no envelope and no queue submission; otherwise
the transaction is dispatched through the queue via `doTransaction`.  The
wrapped function receives the leftover keywords (here: the unconsumed
`ignore` flag). -/
def substituteFunction (kw : CallKw) (stack : List Code) (hasFirst : Bool)
    (q : WQueue) (f : Bool → FRun) : CallOutcome :=
  if kw.consumer && kw.raw then
    ⟨0, [],
     Except.error
       (PyErr.valueError "Cant supply a consumer for a raw transaction result"),
     true⟩
  else if kw.isNestedKw || isNested stack hasFirst then
    let fr := f kw.ignore
    ⟨0, fr.events, fr.result, true⟩
  else
    let d := doTransaction q kw.raw (f kw.ignore)
    ⟨1, d.events, d.result, false⟩

/-- An outer transact-decorated method, called from plain (non-nested)
context, whose body calls an inner transact-decorated method of the same
broker.  When the inner call runs, the worker is inside `transaction`, so
the Python stack seen by `isNested` contains the transaction code object
and the inner call executes directly, its outcome flowing into the outer
body. -/
def nestedCallScenario (inner : FRun) : CallOutcome :=
  substituteFunction ⟨false, false, false, false, false⟩ [] true ⟨true⟩
    fun _ =>
      let innerOut := substituteFunction ⟨false, false, false, false, false⟩
        [Code.transactionCode] true ⟨true⟩ (fun _ => inner)
      ⟨innerOut.events, innerOut.result⟩

/-- Count the commit and rollback events in a trace. -/
def countTx : List Ev → Nat
  | [] => 0
  | Ev.commit :: rest => countTx rest + 1
  | Ev.rollback :: rest => countTx rest + 1
  | _ :: rest => countTx rest

/-- The broker state read and written by `shutdown` (database.py
417-444): the running flag, whether its queue is still running, whether
that queue is the global one (which the factory refuses to kill,
queue.py 125-127), whether the `connection` attribute exists, and whether
the underlying connection is still open. -/
structure ShutBroker where
  running : Bool
  qRunning : Bool
  qGlobal : Bool
  hasConn : Bool
  connOpen : Bool
deriving DecidableEq

/-- Shutdown-time observable actions: an attempt to close the connection,
and the shutdown of the queue by the factory. -/
inductive ShEv where
  | closeConn
  | killQueue
deriving DecidableEq

/-- The `closeConnection` inner function, database.py 424-432: when the
`connection` attribute exists, close the (raw) connection. -/
def closeConnection (b : ShutBroker) : ShutBroker × List ShEv :=
  if b.hasConn then ({ b with connOpen := false }, [ShEv.closeConn])
  else (b, [])

/-- `Factory.kill`, queue.py 112-129: the global queue is never shut
down; any other queue is. -/
def factoryKill (b : ShutBroker) : ShutBroker × List ShEv :=
  if b.qGlobal then (b, [])
  else ({ b with qRunning := false }, [ShEv.killQueue])

/-- `AccessBroker.shutdown`, database.py 417-444: when the broker is
running, clear the running flag; then, when the queue is still running,
take the lock and close the connection; finally have the factory kill the
queue.  When the broker is not running, do nothing at all. -/
def shutdown (b : ShutBroker) : ShutBroker × List ShEv :=
  if b.running then
    let b1 := { b with running := false }
    let c := if b1.qRunning then closeConnection b1 else (b1, [])
    let k := factoryKill c.1
    (k.1, c.2 ++ k.2)
  else (b, [])

/-- The broker state read by `connect` (database.py 315-321): whether the
`q` attribute exists yet, whether the broker has finished starting, and
the engine-side counter of connections checked out so far. -/
structure ConnBroker where
  hasQ : Bool
  running : Bool
  nextConnId : Nat
deriving DecidableEq

/-- The engines `contextual_connect`, called through the queue on every
`connect` (database.py 317-318).  The engine (SQLAlchemy, external to
src/) checks out a new connection object per call, which is what the
repository itself relies on: database.py 614-616 takes `self.connect()`
to supply a fresh connection so that row iteration does not block other
transactions.  Modelled as a fresh identifier from a counter. -/
def contextualConnect (b : ConnBroker) : ConnBroker × Nat :=
  ({ b with nextConnId := b.nextConnId + 1 }, b.nextConnId)

/-- What one call to `connect` does: whether it first waited on
`waitUntilRunning`, and the connection its deferred fires with. -/
structure ConnectCall where
  waitedForStartup : Bool
  conn : Nat
deriving DecidableEq

/-- `AccessBroker.connect`, database.py 315-321: when the `q` attribute
does not yet exist, wait until the broker is running and then check a
connection out of the engine through the queue; when `q` exists, check
one out immediately, whether or not startup has finished. -/
def connect (b : ConnBroker) : ConnBroker × ConnectCall :=
  let c := contextualConnect b
  if b.hasQ then (c.1, ⟨false, c.2⟩) else (c.1, ⟨true, c.2⟩)

/-- Events of the startup-gate machine: the pre-transaction `startup`
hook, the designated first transaction (`firstAsTransaction`,
database.py 274-279), and the queue submission of regular transaction
number i by its `doTransaction`. -/
inductive GEv where
  | startupHook
  | firstTx
  | txRun (i : Nat)
deriving DecidableEq

/-- Who holds the brokers DeferredLock: the startup sequence (which
acquires it in `__init__`, database.py 306, before anything else can),
the `doTransaction` of regular call i, or nobody. -/
inductive LockOwner where
  | startup
  | txCall (i : Nat)
  | nobody
deriving DecidableEq

/-- Releasing a FIFO DeferredLock: the head waiter, if any, becomes the
owner at once; otherwise the lock is free. -/
def handoff (ws : List Nat) : LockOwner × List Nat :=
  match ws with
  | [] => (LockOwner.nobody, [])
  | j :: rest => (LockOwner.txCall j, rest)

/-- The startup-gate protocol state of one broker (database.py 269-306
and 168-189): whether the engine is sqlite (`singleton`, so every
transaction holds the lock), the lock owner and FIFO waiters, the running
flag, and the trace of gate events so far, newest first. -/
structure GateSt where
  singleton : Bool
  owner : LockOwner
  waiters : List Nat
  running : Bool
  trace : List GEv

/-- The broker as constructed: the lock was just acquired by the startup
callback (database.py 305-306), nothing is running yet and nothing has
happened. -/
def gateInit (b : Bool) : GateSt :=
  ⟨b, LockOwner.startup, [], false, []⟩

/-- One asynchronous scheduling step of the broker with its gate
(database.py 269-306 for startup, 168-189 for doTransaction).  The
regular calls are identified by numbers; each step appends the events it
performs to the front of the trace (newest first). -/
inductive GStep : GateSt → GateSt → Prop
  /-- The `startup` callback completes (database.py 281-297): it runs the
  user hook and the designated first transaction in the worker, sets the
  running flag, and only then releases the lock, handing it to the first
  waiter if any. -/
  | startupFinish (s : GateSt) (h : s.owner = LockOwner.startup) :
      GStep s { s with
        owner := (handoff s.waiters).1
        waiters := (handoff s.waiters).2
        running := true
        trace := GEv.firstTx :: GEv.startupHook :: s.trace }
  /-- A regular call on a running non-singleton broker skips the lock
  entirely (database.py 170) and submits its transaction to the queue. -/
  | submitRun (s : GateSt) (i : Nat) (h1 : s.singleton = false)
      (h2 : s.running = true) :
      GStep s { s with trace := GEv.txRun i :: s.trace }
  /-- A regular call that needs the lock (singleton broker, or broker not
  yet running, database.py 170-173) acquires it immediately when free. -/
  | submitAcquire (s : GateSt) (i : Nat)
      (h1 : s.singleton = true ∨ s.running = false)
      (h2 : s.owner = LockOwner.nobody) :
      GStep s { s with owner := LockOwner.txCall i }
  /-- A regular call that needs the lock while it is held joins the FIFO
  wait queue of the DeferredLock. -/
  | submitWait (s : GateSt) (i : Nat)
      (h1 : s.singleton = true ∨ s.running = false)
      (h2 : s.owner ≠ LockOwner.nobody) :
      GStep s { s with waiters := s.waiters ++ [i] }
  /-- A call holding the lock proceeds: it submits its transaction to the
  queue and the lock is passed on (a non-singleton call releases before
  the queue call, a singleton one after; the trace is the same). -/
  | granted (s : GateSt) (i : Nat) (h : s.owner = LockOwner.txCall i) :
      GStep s { s with
        owner := (handoff s.waiters).1
        waiters := (handoff s.waiters).2
        trace := GEv.txRun i :: s.trace }

/-- The states a broker whose engine-kind is b can reach from
construction. -/
def Reach (b : Bool) (s : GateSt) : Prop :=
  Relation.ReflTransGen GStep (gateInit b) s

/-- Well-formedness of a gate trace, read newest first: every regular
transaction submission has the designated first transaction somewhere
after it in the list, i.e. before it in time. -/
def okRev : List GEv → Prop
  | [] => True
  | GEv.txRun _ :: rest => GEv.firstTx ∈ rest ∧ okRev rest
  | _ :: rest => okRev rest

/-- The inductive invariant of the gate machine: the trace is
well-formed; once running, the first transaction has happened; whenever
the startup sequence no longer holds the lock, the first transaction has
happened; and a free lock has no waiters. -/
def GateInv (s : GateSt) : Prop :=
  okRev s.trace ∧
  (s.running = true → GEv.firstTx ∈ s.trace) ∧
  (s.owner ≠ LockOwner.startup → GEv.firstTx ∈ s.trace) ∧
  (s.owner = LockOwner.nobody → s.waiters = [])

/-- A concrete scenario state: a sqlite broker still starting up, with
regular call number 7 already submitted and waiting on the lock. -/
def gateDemoWaiting : GateSt :=
  ⟨true, LockOwner.startup, [7], false, []⟩

/-- The scenario state after startup finished and call 7 ran. -/
def gateDemoDone : GateSt :=
  ⟨true, LockOwner.nobody, [], true,
   [GEv.txRun 7, GEv.firstTx, GEv.startupHook]⟩

/-! Helper lemmas. -/

/-- countTx distributes over append. -/
theorem countTx_append (l1 l2 : List Ev) :
    countTx (l1 ++ l2) = countTx l1 + countTx l2 := by
  induction l1 with
  | nil => simp [countTx]
  | cons e rest ih => cases e <;> simp [countTx, ih] <;> omega

/-- The gate invariant holds at construction. -/
theorem gateInv_init (b : Bool) : GateInv (gateInit b) := by
  refine ⟨trivial, by simp [gateInit], by simp [gateInit], by simp [gateInit]⟩

/-- The gate invariant is preserved by every scheduling step. -/
theorem gateInv_step {s t : GateSt} (hst : GStep s t) (hinv : GateInv s) :
    GateInv t := by
  obtain ⟨h1, h2, h3, h4⟩ := hinv
  cases hst with
  | startupFinish h =>
      refine ⟨?_, ?_, ?_, ?_⟩
      · simpa [okRev] using h1
      · intro _; simp
      · intro _; simp
      · intro hn
        rcases hw : s.waiters with _ | ⟨j, rest⟩
        · simp [handoff, hw]
        · simp only [hw, handoff] at hn
          exact absurd hn (by simp)
  | submitRun i hs hr =>
      refine ⟨⟨h2 hr, h1⟩, ?_, ?_, h4⟩
      · intro _; exact List.mem_cons_of_mem _ (h2 hr)
      · intro _; exact List.mem_cons_of_mem _ (h2 hr)
  | submitAcquire i hcond hfree =>
      refine ⟨h1, h2, ?_, ?_⟩
      · intro _; exact h3 (by rw [hfree]; simp)
      · intro hn; exact absurd hn (by simp)
  | submitWait i hcond hheld =>
      exact ⟨h1, h2, h3, fun hn => absurd hn hheld⟩
  | granted i hown =>
      have hmem : GEv.firstTx ∈ s.trace := h3 (by rw [hown]; simp)
      refine ⟨⟨hmem, h1⟩, ?_, ?_, ?_⟩
      · intro _; exact List.mem_cons_of_mem _ hmem
      · intro _; exact List.mem_cons_of_mem _ hmem
      · intro hn
        rcases hw : s.waiters with _ | ⟨j, rest⟩
        · simp [handoff, hw]
        · simp only [hw, handoff] at hn
          exact absurd hn (by simp)

/-- Every reachable gate state satisfies the invariant. -/
theorem gateInv_reach {b : Bool} {s : GateSt} (h : Reach b s) : GateInv s := by
  unfold Reach at h
  induction h with
  | refl => exact gateInv_init b
  | tail hsteps hstep ih => exact gateInv_step hstep ih

/-- In a well-formed reversed trace, anything after a regular
transaction submission (i.e. chronologically before it) includes the
first transaction. -/
theorem okRev_split :
    ∀ (t1 : List GEv) (i : Nat) (t2 : List GEv),
      okRev (t1 ++ GEv.txRun i :: t2) → GEv.firstTx ∈ t2
  | [], _, _, h => h.1
  | e :: t1, i, t2, h => by
      cases e with
      | txRun j => exact okRev_split t1 i t2 h.2
      | startupHook => exact okRev_split t1 i t2 h
      | firstTx => exact okRev_split t1 i t2 h

/-- From any state in which regular call j holds the lock, the lock is
handed down the FIFO waiter list, so j and every waiter eventually gets
its transaction submitted. -/
theorem gateServe (ws : List Nat) :
    ∀ (j : Nat) (s : GateSt), s.owner = LockOwner.txCall j → s.waiters = ws →
      ∀ i, i = j ∨ i ∈ ws →
        ∃ s2, Relation.ReflTransGen GStep s s2 ∧ GEv.txRun i ∈ s2.trace := by
  induction ws with
  | nil =>
      intro j s hown hws i hi
      rcases hi with rfl | hmem
      · exact ⟨_, Relation.ReflTransGen.single (GStep.granted s i hown), by simp⟩
      · exact absurd hmem (List.not_mem_nil i)
  | cons k rest ih =>
      intro j s hown hws i hi
      have hstep := GStep.granted s j hown
      rcases hi with rfl | hmem
      · exact ⟨_, Relation.ReflTransGen.single hstep, by simp⟩
      · have hown2 : ({ s with
            owner := (handoff s.waiters).1
            waiters := (handoff s.waiters).2
            trace := GEv.txRun j :: s.trace } : GateSt).owner
            = LockOwner.txCall k := by rw [hws]; rfl
        have hws2 : ({ s with
            owner := (handoff s.waiters).1
            waiters := (handoff s.waiters).2
            trace := GEv.txRun j :: s.trace } : GateSt).waiters = rest := by
          rw [hws]; rfl
        rcases List.mem_cons.mp hmem with rfl | hmem2
        · obtain ⟨s2, hs2, hm⟩ := ih i _ hown2 hws2 i (Or.inl rfl)
          exact ⟨s2, Relation.ReflTransGen.head hstep hs2, hm⟩
        · obtain ⟨s2, hs2, hm⟩ := ih k _ hown2 hws2 i (Or.inr hmem2)
          exact ⟨s2, Relation.ReflTransGen.head hstep hs2, hm⟩

/-! The claims. -/

/-- C1: for every wrapped function run by the transaction envelope,
exactly one of commit or rollback occurs before the completion handle
resolves: when the function raises no exception the envelope performs
begin, then the function, then commit, and returns the functions result;
when it raises, rollback occurs unconditionally (and the tagged failure
is what resolves the handle). -/
theorem transaction_exactly_one_commit_or_rollback :
    (∀ evs r, transaction ⟨evs, Except.ok r⟩
        = ⟨Ev.beginTx :: evs ++ [Ev.commit], Except.ok r⟩) ∧
    (∀ evs e, transaction ⟨evs, Except.error e⟩
        = ⟨Ev.beginTx :: evs ++ [Ev.rollback],
           Except.error (PyErr.transactionError e)⟩) ∧
    (∀ evs res, countTx evs = 0 →
      countTx (transaction ⟨evs, res⟩).events = 1) := by
  refine ⟨fun evs r => rfl, fun evs e => rfl, fun evs res h => ?_⟩
  cases res <;> simp [transaction, countTx, countTx_append, h]

/-- C1 witness: a concrete run of the envelope with no commit or
rollback inside the wrapped function performs exactly one. -/
theorem transaction_exactly_one_commit_or_rollback_witness :
    countTx (transaction ⟨[], Except.ok PyVal.none⟩).events = 1 :=
  transaction_exactly_one_commit_or_rollback.2.2 [] (Except.ok PyVal.none) rfl

/-- C2: a wrapped function that raises has its failure captured and
delivered through the completion handle as a TransactionError wrapping
the original exception; on the worker a tasks failure resolves only that
tasks handle, leaves the worker alive, and leaves the outcome of every
other queued task exactly as it would have been. -/
theorem failure_captured_and_tagged_not_worker_fatal :
    (∀ evs e raw, doTransaction ⟨true⟩ raw ⟨evs, Except.error e⟩
        = ⟨Ev.beginTx :: evs ++ [Ev.rollback],
           Except.error (PyErr.transactionError e)⟩) ∧
    (∀ fr, (qStep ⟨true⟩ fr).2.alive = true) ∧
    (∀ ts1 t ts2, qRunAll ⟨true⟩ (ts1 ++ t :: ts2)
        = qRunAll ⟨true⟩ ts1 ++ (transaction t).result :: qRunAll ⟨true⟩ ts2) := by
  refine ⟨fun evs e raw => rfl, fun fr => rfl, fun ts1 t ts2 => ?_⟩
  induction ts1 with
  | nil => rfl
  | cons u us ih => simp [qRunAll, qStep, ih]

/-- C3: a transact-decorated call made while `transaction` (or the
brokers first-transaction code) is on the call stack runs the wrapped
function directly: no queue submission, no new begin or commit, the
callers result is the functions own; consequently an outer transaction
whose body calls an inner transact-decorated method sees one envelope,
and an exception raised in the inner call rolls the whole envelope (both
calls effects) back. -/
theorem nested_transact_runs_directly_and_shares_envelope :
    (∀ raw aL nk ig rest hf q f,
      substituteFunction ⟨raw, aL, false, nk, ig⟩
          (Code.transactionCode :: rest) hf q f
        = ⟨0, (f ig).events, (f ig).result, true⟩) ∧
    (∀ raw aL nk ig rest q f,
      substituteFunction ⟨raw, aL, false, nk, ig⟩
          (Code.firstCode :: rest) true q f
        = ⟨0, (f ig).events, (f ig).result, true⟩) ∧
    (∀ evs e, nestedCallScenario ⟨evs, Except.error e⟩
        = ⟨1, Ev.beginTx :: evs ++ [Ev.rollback],
           Except.error (PyErr.transactionError e), false⟩) ∧
    (∀ evs r, nestedCallScenario ⟨evs, Except.ok r⟩
        = ⟨1, Ev.beginTx :: evs ++ [Ev.commit],
           Except.ok (handleResult r), false⟩) := by
  refine ⟨fun raw aL nk ig rest hf q f => ?_,
          fun raw aL nk ig rest q f => ?_,
          fun evs e => rfl, fun evs r => rfl⟩
  · simp [substituteFunction, isNested]
  · simp [substituteFunction, isNested]

/-- C4: on every reachable broker state, any regular transaction visible
in the (reverse-chronological) trace is chronologically preceded by the
designated first transaction; and any regular call waiting on the lock
before startup completes can always proceed to run its transaction. -/
theorem first_transaction_precedes_regular (b : Bool) (s : GateSt)
    (hs : Reach b s) :
    (∀ t1 i t2, s.trace.reverse = t1 ++ GEv.txRun i :: t2 →
      GEv.firstTx ∈ t1) ∧
    (∀ i, i ∈ s.waiters →
      ∃ s2, Relation.ReflTransGen GStep s s2 ∧ GEv.txRun i ∈ s2.trace) := by
  have hinv := gateInv_reach hs
  constructor
  · intro t1 i t2 hrev
    have htr : s.trace = t2.reverse ++ GEv.txRun i :: t1.reverse := by
      have h0 := congrArg List.reverse hrev
      simpa [List.reverse_append] using h0
    have hmem := okRev_split t2.reverse i t1.reverse (htr ▸ hinv.1)
    exact List.mem_reverse.mp hmem
  · intro i hi
    rcases hoc : s.owner with _ | j | _
    · have hstep := GStep.startupFinish s hoc
      rcases hws : s.waiters with _ | ⟨k, rest⟩
      · rw [hws] at hi; exact absurd hi (List.not_mem_nil i)
      · have hown2 : ({ s with
            owner := (handoff s.waiters).1
            waiters := (handoff s.waiters).2
            running := true
            trace := GEv.firstTx :: GEv.startupHook :: s.trace } : GateSt).owner
            = LockOwner.txCall k := by rw [hws]; rfl
        have hws2 : ({ s with
            owner := (handoff s.waiters).1
            waiters := (handoff s.waiters).2
            running := true
            trace := GEv.firstTx :: GEv.startupHook :: s.trace } : GateSt).waiters
            = rest := by rw [hws]; rfl
        rw [hws] at hi
        rcases List.mem_cons.mp hi with rfl | hm2
        · obtain ⟨s2, h2, hm⟩ := gateServe rest i _ hown2 hws2 i (Or.inl rfl)
          exact ⟨s2, Relation.ReflTransGen.head hstep h2, hm⟩
        · obtain ⟨s2, h2, hm⟩ := gateServe rest k _ hown2 hws2 i (Or.inr hm2)
          exact ⟨s2, Relation.ReflTransGen.head hstep h2, hm⟩
    · exact gateServe s.waiters j s hoc rfl i (Or.inr hi)
    · have hempty := hinv.2.2.2 hoc
      rw [hempty] at hi
      exact absurd hi (List.not_mem_nil i)

/-- C4 witness: in the concrete scenario where call 7 was submitted
during startup, the finished trace shows the first transaction before
call 7, and from the waiting state call 7 can always reach its run. -/
theorem first_transaction_precedes_regular_witness :
    GEv.firstTx ∈ [GEv.startupHook, GEv.firstTx] ∧
    ∃ s2, Relation.ReflTransGen GStep gateDemoWaiting s2 ∧
      GEv.txRun 7 ∈ s2.trace := by
  have h01 : GStep (gateInit true) gateDemoWaiting :=
    GStep.submitWait (gateInit true) 7 (Or.inl rfl) (by decide)
  have hr1 : Reach true gateDemoWaiting := Relation.ReflTransGen.single h01
  have h12 : GStep gateDemoWaiting
      ⟨true, LockOwner.txCall 7, [], true, [GEv.firstTx, GEv.startupHook]⟩ :=
    GStep.startupFinish gateDemoWaiting rfl
  have h23 : GStep
      ⟨true, LockOwner.txCall 7, [], true, [GEv.firstTx, GEv.startupHook]⟩
      gateDemoDone :=
    GStep.granted _ 7 rfl
  have hr3 : Reach true gateDemoDone :=
    Relation.ReflTransGen.tail (Relation.ReflTransGen.tail hr1 h12) h23
  refine ⟨?_, ?_⟩
  · exact (first_transaction_precedes_regular true gateDemoDone hr3).1
      [GEv.startupHook, GEv.firstTx] 7 [] rfl
  · exact (first_transaction_precedes_regular true gateDemoWaiting hr1).2 7
      (by simp [gateDemoWaiting])

/-- C5: a second shutdown after a completed one is a no-op: it performs
no close attempt and no shutdown work, and returns with the broker state
unchanged. -/
theorem shutdown_idempotent (b : ShutBroker) :
    shutdown (shutdown b).1 = ((shutdown b).1, []) := by
  rcases b with ⟨r, qr, qg, hc, co⟩
  cases r <;> cases qr <;> cases qg <;> cases hc <;> cases co <;> rfl

/-- C6 counterexample: on a broker whose queue exists but which has not
finished starting, connect does not wait on the startup gate; and on a
running broker two calls to connect return two distinct connections, not
the brokers one connection. -/
theorem connect_not_idempotent_counterexample :
    (connect ⟨true, false, 0⟩).2.waitedForStartup = false ∧
    (connect ⟨true, true, 0⟩).2.conn = 0 ∧
    (connect (connect ⟨true, true, 0⟩).1).2.conn = 1 := by
  exact ⟨rfl, rfl, rfl⟩

/-- C6 amended: every call to connect checks a fresh connection out of
the engine through the queue, so successive calls return distinct
connection objects; it waits for the broker to be running only when the
queue attribute does not yet exist, not whenever startup is
unfinished. -/
theorem connect_fresh_connection_each_call (b : ConnBroker) :
    (connect b).2.waitedForStartup = !b.hasQ ∧
    (connect b).2.conn = b.nextConnId ∧
    (connect (connect b).1).2.conn = b.nextConnId + 1 ∧
    (connect (connect b).1).2.conn ≠ (connect b).2.conn := by
  rcases b with ⟨hq, r, n⟩
  cases hq <;> exact ⟨rfl, rfl, rfl, Nat.succ_ne_self n⟩

/-- C7 counterexample: a transactional call made with the ignore option
set, whose wrapped function raises, still resolves its completion handle
with the propagated tagged failure (after rollback); the failure is not
swallowed. -/
theorem ignore_option_counterexample :
    (substituteFunction ⟨false, false, false, false, true⟩ [] true ⟨true⟩
        (fun _ => ⟨[], Except.error (PyErr.exc "boom")⟩)).result
      = Except.error (PyErr.transactionError (PyErr.exc "boom")) ∧
    Ev.rollback ∈ (substituteFunction ⟨false, false, false, false, true⟩ []
        true ⟨true⟩
        (fun _ => ⟨[], Except.error (PyErr.exc "boom")⟩)).events :=
  ⟨rfl, by decide⟩

/-- C7 amended: the ignore option is not implemented by the code: an
exception raised by the wrapped function still triggers rollback, but
the failure is always propagated on the completion handle as a
TransactionError, whatever the value of the (merely passed-through)
ignore keyword. -/
theorem ignore_unimplemented_failure_always_propagates
    (ig raw aL : Bool) (evs : List Ev) (e : PyErr) (hf : Bool) :
    substituteFunction ⟨raw, aL, false, false, ig⟩ [] hf ⟨true⟩
        (fun _ => ⟨evs, Except.error e⟩)
      = ⟨1, Ev.beginTx :: evs ++ [Ev.rollback],
         Except.error (PyErr.transactionError e), false⟩ := by
  simp [substituteFunction, isNested, doTransaction, transaction]

/-- C8: in pull-mode iteration, an exhausted cursor (and even a raising
fetch) makes the fetch step signal end-of-sequence as the distinguished
done signal rather than an error; an immediately exhausted result proxy
is handled as the distinguished empty list; and driving the iteration
delivers every row, in order, with one fetch-next-row queue task per
per-row handle plus the single end-detecting fetch. -/
theorem pull_iteration_end_of_sequence :
    (∀ b, nextFromRP ⟨[], b⟩ 1 = Fetched.done) ∧
    (∀ rows, nextFromRP ⟨rows, true⟩ 1 = Fetched.done) ∧
    (∀ b, handleResult (PyVal.rp [] b) = PyVal.rowsList []) ∧
    (∀ r rest, handleResult (PyVal.rp (r :: rest) false)
        = PyVal.deferator (r :: rest)) ∧
    (∀ rows, pullIterate ⟨rows, false⟩ = (rows, rows.length + 1)) := by
  have hgo : ∀ (rows : List Nat) (fuel : Nat), rows.length < fuel →
      pullGo fuel ⟨rows, false⟩ = (rows, rows.length + 1) := by
    intro rows
    induction rows with
    | nil =>
        intro fuel h
        cases fuel with
        | zero => omega
        | succ m => rfl
    | cons r rest ih =>
        intro fuel h
        cases fuel with
        | zero => omega
        | succ m =>
            have hm : rest.length < m := by
              simp only [List.length_cons] at h
              omega
            simp [pullGo, nextFromRP, ih m hm]
  refine ⟨fun b => by cases b <;> rfl, fun rows => rfl,
          fun b => by cases b <;> rfl, fun r rest => rfl,
          fun rows => hgo rows (rows.length + 1) (Nat.lt_succ_self _)⟩

/-- C9: a transactional call submitted after shutdown has begun, when
the lock is free again and the queue has been killed, resolves its
completion handle at once with a failure (and performs no transaction
events) instead of hanging or queueing forever; and shutting down a
running broker with a non-global queue does leave the queue dead. -/
theorem post_shutdown_call_fails_fast :
    (∀ raw aL ig hf f,
      substituteFunction ⟨raw, aL, false, false, ig⟩ [] hf ⟨false⟩ f
        = ⟨1, [], Except.error PyErr.queueRunError, false⟩) ∧
    (∀ qr hc co, (shutdown ⟨true, qr, false, hc, co⟩).1.qRunning = false) := by
  constructor
  · intro raw aL ig hf f
    simp [substituteFunction, isNested, doTransaction]
  · intro qr hc co
    cases qr <;> cases hc <;> cases co <;> rfl

/-- C10: a transact-decorated call supplying both a consumer and raw
raises ValueError immediately: synchronously, with no queue submission
and no transaction events. -/
theorem consumer_with_raw_raises_value_error
    (aL nk ig : Bool) (stack : List Code) (hf : Bool) (q : WQueue)
    (f : Bool → FRun) :
    substituteFunction ⟨true, aL, true, nk, ig⟩ stack hf q f
      = ⟨0, [],
         Except.error (PyErr.valueError
           "Cant supply a consumer for a raw transaction result"),
         true⟩ := rfl

end SAsync
